import Mathlib

/-!
Verification of the archive-housekeeping utilities in
`Recipe/workflow/auxiliary.py` (the Patcher `update_gc_zip_annotation`,
the Analyzer `analyze_annotations`, the Normalizer `unzip_and_organize`
and the Packager `zip_folder`).

The Python module is shallowly embedded: JSON documents are an inductive
type, file contents are an inductive type that distinguishes the byte
serialisations the code can tell apart, the filesystem is a list of
(path, content) entries plus a list of explicitly created directories,
and every public operation is a pure function on that state.  Recursive
`os.walk` enumeration order is modelled by list order, which realises one
possible on-disk enumeration (the source itself selects the first match
of a platform-dependent walk order).
-/

set_option autoImplicit false

namespace Ophelia

/-- A parsed JSON document, as produced by Python `json.load`:
`null`, booleans, numbers, strings, arrays and objects (objects keep
insertion order of their keys, as Python dicts do). -/
inductive Json where
  | null
  | bool (b : Bool)
  | num (n : Int)
  | str (s : String)
  | arr (elems : List Json)
  | obj (fields : List (String × Json))

/-- String utilities implemented over the character list so that every
definition reduces inside the kernel.  `strStarts p s` is true when `p`
is a prefix of `s`. -/
def strStarts (p s : String) : Bool := p.toList.isPrefixOf s.toList

/-- `strEnds suf s` is Python `s.endswith(suf)`. -/
def strEnds (suf s : String) : Bool := suf.toList.isSuffixOf s.toList

/-- Number of characters of a string (Python `len` on the paths used here). -/
def strLen (s : String) : Nat := s.toList.length

/-- Drop the first `n` characters of a string. -/
def strDropN (s : String) (n : Nat) : String := ⟨s.toList.drop n⟩

/-- Drop the last `n` characters of a string (`os.path.splitext` for a
fixed four character extension such as `.zip`). -/
def strDropTail (s : String) (n : Nat) : String := ⟨s.toList.take (s.toList.length - n)⟩

/-- Split a character list at a separator character. -/
def splitChars (sep : Char) : List Char → List (List Char)
  | [] => [[]]
  | c :: rest =>
    match splitChars sep rest with
    | [] => [[]]
    | h :: t => if c == sep then [] :: h :: t else (c :: h) :: t

/-- Split a path at `/` separators. -/
def splitSlash (s : String) : List String := (splitChars '/' s.toList).map (fun l => ⟨l⟩)

/-- `os.path.basename`: the component after the last slash. -/
def basename (s : String) : String := (splitSlash s).getLastD s

/-- First path component of a relative path (used for `os.listdir` of
the extraction scratch directory). -/
def firstSeg (s : String) : String := (splitSlash s).headD s

/-- Python substring test (`needle in haystack` for strings): some
suffix of the haystack starts with the needle. -/
def charsContain : List Char → List Char → Bool
  | [], needle => needle.isEmpty
  | c :: t, needle => needle.isPrefixOf (c :: t) || charsContain t needle

/-- `needle in hay` for Python strings. -/
def strContains (hay needle : String) : Bool := charsContain hay.toList needle.toList

/-- Exceptions the embedded Python code can raise. -/
inductive PyErr where
  | nameError
  | typeError
  | keyError
  | jsonDecodeError
  | badZipFile
  | fileNotFound
  | notADirectory
  | fileExists
  deriving DecidableEq

/-- First-match lookup in an association list of JSON object fields
(Python dict lookup; `json.load` never produces duplicate keys). -/
def lookupKey : List (String × Json) → String → Option Json
  | [], _ => none
  | (k, v) :: rest, key => if k = key then some v else lookupKey rest key

/-- Python dict assignment `d[key] = val`: replace the value in place if
the key exists (keeping its position) and append the key at the end
otherwise. -/
def setKey : List (String × Json) → String → Json → List (String × Json)
  | [], key, val => [(key, val)]
  | (k, v) :: rest, key, val =>
    if k = key then (k, val) :: rest else (k, v) :: setKey rest key val

/-- Field access on a JSON value that is known to be an object
(`none` on every other shape). -/
def getKey (v : Json) (k : String) : Option Json :=
  match v with
  | .obj fields => lookupKey fields k
  | _ => none

/-- Python `key in data` for a value produced by `json.load`: key lookup
on dicts, element membership on lists (a string only equals a string),
substring test on strings, and `TypeError` on numbers, booleans and
`None`, which are not iterable. -/
def pyIn (needle : String) : Json → Except PyErr Bool
  | .obj fields => .ok (lookupKey fields needle).isSome
  | .arr elems =>
    .ok (elems.any (fun e => match e with | .str t => t == needle | _ => false))
  | .str s => .ok (strContains s needle)
  | _ => .error .typeError

/-- Python subscript `data[key]` with a string key: dict lookup, and
`TypeError` on lists, strings and scalars. -/
def getItem : Json → String → Except PyErr Json
  | .obj fields, key =>
    match lookupKey fields key with
    | some v => .ok v
    | none => .error .keyError
  | _, _ => .error .typeError

/-- Replace a top-level field of a JSON object (the functional image of
the in-place mutation `data[key] = ...`; `json.load` never aliases two
distinct fields to one dict). -/
def setTop (data : Json) (key : String) (val : Json) : Json :=
  match data with
  | .obj fields => .obj (setKey fields key val)
  | _ => data

/-- Step 4 of `update_gc_zip_annotation` on one parsed document: if the
top level has an `annotations` field holding an object, overwrite its
`name`; then, on the updated document, if the top level has a `sequence`
field holding an object, overwrite its `location`.  The membership tests
and subscripts follow Python semantics and can raise. -/
def updateData (annotation_name sequence_location : String) (data : Json) :
    Except PyErr Json :=
  match pyIn "annotations" data with
  | .error e => .error e
  | .ok bAnn =>
    let step1 : Except PyErr Json :=
      if bAnn then
        match getItem data "annotations" with
        | .error e => .error e
        | .ok (.obj af) =>
          .ok (setTop data "annotations" (.obj (setKey af "name" (.str annotation_name))))
        | .ok _ => .ok data
      else .ok data
    match step1 with
    | .error e => .error e
    | .ok d1 =>
      match pyIn "sequence" d1 with
      | .error e => .error e
      | .ok bSeq =>
        if bSeq then
          match getItem d1 "sequence" with
          | .error e => .error e
          | .ok (.obj sf) =>
            .ok (setTop d1 "sequence" (.obj (setKey sf "location" (.str sequence_location))))
          | .ok _ => .ok d1
        else .ok d1

/-- Content of a file, at the byte level the embedded code can
distinguish: `jsonPretty v` is exactly the byte string
`json.dump(v, indent=4)`; `jsonText v variant` is some other byte
serialisation that parses to `v` (distinct `variant` tags stand for
distinct byte strings); `rawText` is a byte string that is not valid
JSON; `zipData` is a well-formed zip archive holding the given file
entries; `selfRef` stands for the bytes read back from an archive file
while that same archive is being written (Packager corner case). -/
inductive Content where
  | jsonPretty (v : Json)
  | jsonText (v : Json) (variant : Nat)
  | rawText (s : String)
  | zipData (entries : List (String × Content))
  | selfRef

/-- `json.load` on a file: both serialisations of `v` parse to `v`,
everything else raises `JSONDecodeError`. -/
def parseContent : Content → Option Json
  | .jsonPretty v => some v
  | .jsonText v _ => some v
  | _ => none

/-- The per-file body of step 4 plus the re-pack of step 5 for one
archive entry: `.fusion-data` files are parsed (a parse failure raises,
and in the Patcher nothing catches it per file), updated, and written
back pretty-printed; other files are carried over byte-for-byte. -/
def patchEntry (annotation_name sequence_location : String) (e : String × Content) :
    Except PyErr (String × Content) :=
  if strEnds ".fusion-data" e.1 then
    match parseContent e.2 with
    | none => .error .jsonDecodeError
    | some v =>
      match updateData annotation_name sequence_location v with
      | .error err => .error err
      | .ok v2 => .ok (e.1, .jsonPretty v2)
  else .ok e

/-- The edit loop of the Patcher over all extracted files, stopping at
the first exception (the outer handler then swallows it and the original
archive is left untouched, since the re-pack of step 5 is never
reached). -/
def patchAll (annotation_name sequence_location : String) :
    List (String × Content) → Except PyErr (List (String × Content))
  | [] => .ok []
  | e :: rest =>
    match patchEntry annotation_name sequence_location e with
    | .error err => .error err
    | .ok e2 =>
      match patchAll annotation_name sequence_location rest with
      | .error err => .error err
      | .ok rest2 => .ok (e2 :: rest2)

/-- The filesystem: regular files with their content, plus directories
that exist on their own (created by `os.makedirs`); directories implied
by file paths are derived from `files`. -/
structure FS where
  files : List (String × Content)
  dirs : List String

/-- First-match file lookup by full path. -/
def lookupFileList : List (String × Content) → String → Option Content
  | [], _ => none
  | e :: rest, p => if e.1 = p then some e.2 else lookupFileList rest p

/-- Content of the file at path `p`, if any. -/
def lookupFile (fs : FS) (p : String) : Option Content := lookupFileList fs.files p

/-- Write a file: overwrite the existing entry in place, create it
otherwise. -/
def setFileList : List (String × Content) → String → Content → List (String × Content)
  | [], p, c => [(p, c)]
  | e :: rest, p, c => if e.1 = p then (p, c) :: rest else e :: setFileList rest p c

/-- Write a file into the filesystem. -/
def setFile (fs : FS) (p : String) (c : Content) : FS :=
  { fs with files := setFileList fs.files p c }

/-- `shutil.rmtree p`: remove the directory `p` and everything below it. -/
def removeSubtree (fs : FS) (p : String) : FS :=
  { files := fs.files.filter (fun e => !(strStarts (p ++ "/") e.1) && e.1 ≠ p),
    dirs := fs.dirs.filter (fun d => !(strStarts (p ++ "/") d) && d ≠ p) }

/-- `os.remove p`: delete one regular file. -/
def removeFile (fs : FS) (p : String) : FS :=
  { fs with files := fs.files.filter (fun e => e.1 ≠ p) }

/-- Locate the first file under `dir` whose name ends with `-GC.zip`
(step 1 of both the Patcher and the Analyzer: a recursive `os.walk`
taking the first match; list order realises the walk order). -/
def findGC (fs : FS) (dir : String) : Option String :=
  (fs.files.map Prod.fst).find? (fun p => strStarts (dir ++ "/") p && strEnds "-GC.zip" p)

/-- The Patcher `update_gc_zip_annotation(data_folder_dir, annotation_name,
sequence_location)` as a state transformer, by its net effect on the
filesystem.  It locates the first `-GC.zip` file; if none is found it
returns with the filesystem untouched.  Otherwise the scratch directory
`data_folder_dir/temp_unzip` is recreated empty (deleting any stale
subtree), the archive is extracted there, every `.fusion-data` file is
edited, the archive is rebuilt from the scratch directory, and the
`finally` block removes the scratch subtree on every path.  Because the
scratch directory is born empty and is always removed, its net effect is
exactly the deletion of any stale `temp_unzip` subtree; an exception
while opening, parsing or editing is caught by the outer handler and
leaves the original archive in place. -/
def update_gc_zip_annotations (fs : FS)
    (data_folder_dir annotation_name sequence_location : String) : FS :=
  match findGC fs data_folder_dir with
  | none => fs
  | some zip_file_path =>
    let temp_dir := data_folder_dir ++ "/temp_unzip"
    let fs1 := removeSubtree fs temp_dir
    match lookupFile fs1 zip_file_path with
    | some (Content.zipData entries) =>
      match patchAll annotation_name sequence_location entries with
      | .error _ => fs1
      | .ok patched => setFile fs1 zip_file_path (Content.zipData patched)
    | some _ => fs1
    | none => fs1

/-- Total of all tally counts of a counter (a Python `Counter` is kept
in insertion order as a list of (key, count) pairs). -/
def sumCounts : List (Json × Nat) → Nat
  | [] => 0
  | p :: rest => p.2 + sumCounts rest

/-- Python `==` between the scalar values that can reach a `Counter` key
here (lists and dicts are rejected as unhashable before this point).
The Python identification of `True` with `1` is not modelled; it can only
merge two counter buckets and never changes the total count. -/
def keyEq : Json → Json → Bool
  | .null, .null => true
  | .bool a, .bool b => a == b
  | .num a, .num b => a == b
  | .str a, .str b => a == b
  | _, _ => false

/-- `counter[key] += 1`: bump the existing bucket in place, or append a
new bucket with count 1. -/
def bump : List (Json × Nat) → Json → List (Json × Nat)
  | [], k => [(k, 1)]
  | p :: rest, k => if keyEq p.1 k then (p.1, p.2 + 1) :: rest else p :: bump rest k

/-- Python hashability of a `json.load` value: lists and dicts raise
`TypeError` when used as a `Counter` key. -/
def hashable : Json → Bool
  | .arr _ => false
  | .obj _ => false
  | _ => true

/-- JSON top-level shapes on which Python `"k" in data` raises
`TypeError` (numbers, booleans and `None` are not iterable). -/
def nonIterable : Json → Bool
  | .null => true
  | .bool _ => true
  | .num _ => true
  | _ => false

/-- The `annotations:name` block of the Analyzer loop body on one parsed
document: if the top level has an object-shaped `annotations` field,
tally `annotations.get("name", "No name field found")`.  The membership
test, the subscript and the counter key can each raise. -/
def nameTally (ns : List (Json × Nat)) (data : Json) : Except PyErr (List (Json × Nat)) :=
  match pyIn "annotations" data with
  | .error e => .error e
  | .ok bAnn =>
    if bAnn then
      match getItem data "annotations" with
      | .error e => .error e
      | .ok (.obj af) =>
        let nm := (lookupKey af "name").getD (Json.str "No name field found")
        if hashable nm then .ok (bump ns nm) else .error .typeError
      | .ok _ => .ok ns
    else .ok ns

/-- The `sequence:location` block of the Analyzer loop body, identical in
shape to the name block. -/
def locTally (ls : List (Json × Nat)) (data : Json) : Except PyErr (List (Json × Nat)) :=
  match pyIn "sequence" data with
  | .error e => .error e
  | .ok bSeq =>
    if bSeq then
      match getItem data "sequence" with
      | .error e => .error e
      | .ok (.obj sf) =>
        let loc := (lookupKey sf "location").getD (Json.str "No location field found")
        if hashable loc then .ok (bump ls loc) else .error .typeError
      | .ok _ => .ok ls
    else .ok ls

/-- State of the Analyzer scan: the two counters and the list of entry
names reported as invalid JSON, in the order they were printed. -/
structure ACounters where
  names : List (Json × Nat)
  locs : List (Json × Nat)
  log : List String

/-- One iteration of the Analyzer loop over `zip_ref.namelist()`: entries
not ending in `.fusion-data` are ignored; a `json.JSONDecodeError` is
caught per entry, its name is logged and the scan continues; any other
exception escapes to the operation-level handler. -/
def processEntry (st : ACounters) (e : String × Content) : Except PyErr ACounters :=
  if strEnds ".fusion-data" e.1 then
    match parseContent e.2 with
    | none => .ok ⟨st.names, st.locs, st.log ++ [e.1]⟩
    | some data =>
      match nameTally st.names data with
      | .error err => .error err
      | .ok ns1 =>
        match locTally st.locs data with
        | .error err => .error err
        | .ok ls1 => .ok ⟨ns1, ls1, st.log⟩
  else .ok st

/-- The Analyzer scan over all archive entries, stopping at the first
uncaught exception. -/
def analyzeEntries (st : ACounters) : List (String × Content) → Except PyErr ACounters
  | [] => .ok st
  | e :: rest =>
    match processEntry st e with
    | .error err => .error err
    | .ok st1 => analyzeEntries st1 rest

/-- Outcome of `analyze_annotations`: the function always returns
normally; `noZipFound` and `opError` print a message and return without
printing any tallies, `tallies` prints both counters (insertion order)
after a complete scan. -/
inductive AnalyzerResult where
  | noZipFound
  | opError (e : PyErr)
  | tallies (names locs : List (Json × Nat)) (badEntries : List String)

/-- The Analyzer `analyze_annotations(data_folder_dir)`: locate the first
`-GC.zip` archive exactly as the Patcher does, stream its entries, and
tally `annotations:name` and `sequence:location`.  It never mutates the
filesystem, and any exception escaping the per-entry handler (including a
failure to open the archive) is caught by the operation-level handler,
which returns before printing tallies. -/
def analyze_annotations (fs : FS) (data_folder_dir : String) : AnalyzerResult :=
  match findGC fs data_folder_dir with
  | none => .noZipFound
  | some zip_file_path =>
    match lookupFile fs zip_file_path with
    | some (Content.zipData entries) =>
      match analyzeEntries ⟨[], [], []⟩ entries with
      | .ok st => .tallies st.names st.locs st.log
      | .error e => .opError e
    | some _ => .opError .badZipFile
    | none => .opError .fileNotFound

/-- `os.path.exists`: a regular file, an explicitly created directory, or
a directory implied by deeper paths. -/
def pathExists (fs : FS) (p : String) : Bool :=
  fs.files.any (fun e => e.1 == p) || fs.dirs.any (fun d => d == p) ||
    fs.files.any (fun e => strStarts (p ++ "/") e.1) ||
    fs.dirs.any (fun d => strStarts (p ++ "/") d)

/-- A regular file exists at `p`. -/
def isFile (fs : FS) (p : String) : Bool := fs.files.any (fun e => e.1 == p)

/-- A directory exists at `p` (explicitly created, or implied by an entry
below it). -/
def dirExists (fs : FS) (p : String) : Bool :=
  fs.dirs.any (fun d => d == p) || fs.files.any (fun e => strStarts (p ++ "/") e.1) ||
    fs.dirs.any (fun d => strStarts (p ++ "/") d)

/-- `os.makedirs(p, exist_ok=True)` for a path whose parent exists. -/
def mkdirs (fs : FS) (p : String) : FS :=
  if fs.dirs.contains p then fs else { fs with dirs := fs.dirs ++ [p] }

/-- `shutil.move src dst` onto a destination path that does not exist:
every entry at or below `src` is re-rooted at `dst`. -/
def movePath (fs : FS) (src dst : String) : FS :=
  { files := fs.files.map (fun e =>
      if e.1 == src then (dst, e.2)
      else if strStarts (src ++ "/") e.1 then (dst ++ strDropN e.1 (strLen src), e.2)
      else e),
    dirs := fs.dirs.map (fun d =>
      if d == src then dst
      else if strStarts (src ++ "/") d then dst ++ strDropN d (strLen src)
      else d) }

/-- `zip_ref.extractall dest`: write every archive entry below `dest`,
overwriting files that already exist there. -/
def extractAll (fs : FS) (dest : String) (entries : List (String × Content)) : FS :=
  entries.foldl (fun acc e => setFile acc (dest ++ "/" ++ e.1) e.2) fs

/-- Keep the first occurrence of each element (the set of names
`os.listdir` would report), with an accumulator of names already seen. -/
def dedupSeen (seen : List String) : List String → List String
  | [] => []
  | x :: rest =>
    if seen.contains x then dedupSeen seen rest else x :: dedupSeen (seen ++ [x]) rest

/-- `os.listdir p`: the distinct top-level names below `p`, files first
then explicitly created directories, in filesystem order. -/
def listdirTop (fs : FS) (p : String) : List String :=
  dedupSeen []
    ((fs.files.filterMap (fun e =>
        if strStarts (p ++ "/") e.1 then some (firstSeg (strDropN e.1 (strLen p + 1))) else none)) ++
     (fs.dirs.filterMap (fun d =>
        if strStarts (p ++ "/") d then some (firstSeg (strDropN d (strLen p + 1))) else none)))

/-- `glob.glob(f"{data_folder}/*.zip")`: files directly under
`data_folder` ending in `.zip`, collected once before the loop. -/
def globZips (fs : FS) (data_folder : String) : List String :=
  (fs.files.map Prod.fst).filter (fun p =>
    strStarts (data_folder ++ "/") p &&
      !(strContains (strDropN p (strLen data_folder + 1)) "/") && strEnds ".zip" p)

/-- The general-case branch of the Normalizer: move every top-level
extracted item into `data_folder`.  `shutil.move` into an existing
directory raises `shutil.Error` when the destination name already
exists. -/
def moveItems (fs : FS) (temp dest : String) : List String → Except (PyErr × FS) FS
  | [] => .ok fs
  | item :: rest =>
    if pathExists fs (dest ++ "/" ++ item) then .error (.fileExists, fs)
    else moveItems (movePath fs (temp ++ "/" ++ item) (dest ++ "/" ++ item)) temp dest rest

/-- One iteration of the Normalizer loop for one archive: create the
scratch directory `data_folder/temp_extraction` (`exist_ok=True`, so a
stale scratch directory is reused uncleared), extract, inspect the
top-level extracted names, move either the single same-named folder
(deleting an existing destination folder first) or every item
individually, delete the source archive, and remove the scratch
subtree.  There is no handler here: an exception leaves the function
with the state reached so far, scratch directory included. -/
def normStep (data_folder : String) (fs : FS) (zip_file : String) : Except (PyErr × FS) FS :=
  let temp := data_folder ++ "/temp_extraction"
  let fs1 := mkdirs fs temp
  match lookupFile fs1 zip_file with
  | some (Content.zipData entries) =>
    let fs2 := extractAll fs1 temp entries
    let zip_base := strDropTail (basename zip_file) 4
    let items := listdirTop fs2 temp
    let moved : Except (PyErr × FS) FS :=
      if items == [zip_base] then
        let extracted := temp ++ "/" ++ zip_base
        let final := data_folder ++ "/" ++ zip_base
        if pathExists fs2 final then
          if isFile fs2 final then .error (.notADirectory, fs2)
          else .ok (movePath (removeSubtree fs2 final) extracted final)
        else .ok (movePath fs2 extracted final)
      else moveItems fs2 temp data_folder items
    match moved with
    | .error e => .error e
    | .ok fs3 => .ok (removeSubtree (removeFile fs3 zip_file) temp)
  | some _ => .error (.badZipFile, fs1)
  | none => .error (.fileNotFound, fs1)

/-- Outcome of one call to the Normalizer: either a normal return or an
uncaught exception, each with the filesystem state at that moment. -/
inductive NormResult where
  | ok (fs : FS)
  | err (e : PyErr) (fs : FS)

/-- The Normalizer loop over the archives collected up front. -/
def normLoop (data_folder : String) : List String → FS → NormResult
  | [], fs => .ok fs
  | z :: rest, fs =>
    match normStep data_folder fs z with
    | .error (e, fs1) => .err e fs1
    | .ok fs1 => normLoop data_folder rest fs1

/-- The body of `unzip_and_organize` past its first line. -/
def unzip_body (fs : FS) (data_folder : String) : NormResult :=
  normLoop data_folder (globZips fs data_folder) fs

/-- The names imported at the top of `Recipe/workflow/auxiliary.py`:
`os`, `shutil`, `single` and `multiplex` from `.slicer`, `zipfile`,
`json` and `Counter` from `collections`. -/
def auxiliaryImports : List String :=
  ["os", "shutil", "single", "multiplex", "zipfile", "json", "Counter"]

/-- Whether the bare name `glob` used on the first line of
`unzip_and_organize` resolves in the module namespace. -/
def glob_resolves : Bool := auxiliaryImports.contains "glob"

/-- The Normalizer `unzip_and_organize(data_folder)`.  Python resolves
the name `glob` at call time in the module namespace, so the function is
parameterised by whether that name resolves: when it does not (the
module as written), the very first line raises `NameError` before any
archive is touched. -/
def unzip_and_organize (glob_available : Bool) (fs : FS) (data_folder : String) :
    NormResult :=
  if glob_available then unzip_body fs data_folder else .err .nameError fs

/-- The Packager `zip_folder(output_folder, zip_name)`: walk the source
folder collecting every file except `holder.gitignore` together with its
path relative to the folder, then create the archive at `zip_name` and
write the collected files into it.  The file list is fixed before the
archive is opened for writing, so a pre-existing file at `zip_name`
inside the folder is listed; its bytes are read only at write time,
after the path has been reopened for writing (`selfRef`). -/
def zip_folder (fs : FS) (output_folder zip_name : String) : FS :=
  let files_to_zip := fs.files.filterMap (fun e =>
    if strStarts (output_folder ++ "/") e.1 && basename e.1 ≠ "holder.gitignore" then
      some (e.1, strDropN e.1 (strLen output_folder + 1))
    else none)
  setFile fs zip_name (Content.zipData (files_to_zip.map (fun pr =>
    (pr.2, if pr.1 == zip_name then Content.selfRef
           else (lookupFile fs pr.1).getD (Content.rawText "")))))

/-! ### Association-list lemmas (Python dict update semantics) -/

theorem lookupKey_setKey_self (l : List (String × Json)) (k : String) (v : Json) :
    lookupKey (setKey l k v) k = some v := by
  induction l with
  | nil => simp [setKey, lookupKey]
  | cons e rest ih =>
    obtain ⟨k0, v0⟩ := e
    by_cases h : k0 = k
    · subst h; simp [setKey, lookupKey]
    · simp [setKey, lookupKey, h, ih]

theorem lookupKey_setKey_ne (l : List (String × Json)) (k k2 : String) (v : Json)
    (h : k2 ≠ k) : lookupKey (setKey l k v) k2 = lookupKey l k2 := by
  induction l with
  | nil => simp [setKey, lookupKey, Ne.symm h]
  | cons e rest ih =>
    obtain ⟨k0, v0⟩ := e
    by_cases h0 : k0 = k
    · subst h0
      have hne : ¬k0 = k2 := fun hh => h hh.symm
      simp [setKey, lookupKey, hne]
    · simp [setKey, lookupKey, h0, ih]

theorem setKey_self (l : List (String × Json)) (k : String) (v : Json)
    (h : lookupKey l k = some v) : setKey l k v = l := by
  induction l with
  | nil => simp [lookupKey] at h
  | cons e rest ih =>
    obtain ⟨k0, v0⟩ := e
    by_cases h0 : k0 = k
    · subst h0
      simp [lookupKey] at h
      simp [setKey, h]
    · simp [lookupKey, h0] at h
      simp [setKey, h0, ih h]

/-! ### Patcher edit-step lemmas -/

/-- The document written back by the Patcher for one parsed document
(`updateData` is total on the inputs where it returns normally). -/
def updatedDoc (annotation_name sequence_location : String) (v : Json) : Json :=
  match updateData annotation_name sequence_location v with
  | .ok v2 => v2
  | .error _ => v

/-- The archive entry produced by the Patcher for one input entry. -/
def appliedPatch (annotation_name sequence_location : String) (e : String × Content) :
    String × Content :=
  match patchEntry annotation_name sequence_location e with
  | .ok e2 => e2
  | .error _ => e

theorem updateData_obj (an sl : String) (fields A S : List (String × Json))
    (hA : lookupKey fields "annotations" = some (Json.obj A))
    (hS : lookupKey fields "sequence" = some (Json.obj S)) :
    updateData an sl (Json.obj fields) =
      .ok (Json.obj (setKey (setKey fields "annotations"
            (Json.obj (setKey A "name" (Json.str an)))) "sequence"
            (Json.obj (setKey S "location" (Json.str sl))))) := by
  have hseq : lookupKey (setKey fields "annotations"
      (Json.obj (setKey A "name" (Json.str an)))) "sequence" = some (Json.obj S) := by
    rw [lookupKey_setKey_ne _ _ _ _ (by decide)]
    exact hS
  simp [updateData, pyIn, hA, getItem, setTop, hseq]

theorem updatedDoc_obj (an sl : String) (fields A S : List (String × Json))
    (hA : lookupKey fields "annotations" = some (Json.obj A))
    (hS : lookupKey fields "sequence" = some (Json.obj S)) :
    updatedDoc an sl (Json.obj fields) =
      Json.obj (setKey (setKey fields "annotations"
        (Json.obj (setKey A "name" (Json.str an)))) "sequence"
        (Json.obj (setKey S "location" (Json.str sl)))) := by
  simp [updatedDoc, updateData_obj an sl fields A S hA hS]

theorem updatedDoc_name (an sl : String) (v : Json) (A S : List (String × Json))
    (hA : getKey v "annotations" = some (Json.obj A))
    (hS : getKey v "sequence" = some (Json.obj S)) :
    (getKey (updatedDoc an sl v) "annotations").bind (fun a => getKey a "name") =
      some (Json.str an) := by
  cases v with
  | obj fields =>
    simp only [getKey] at hA hS
    rw [updatedDoc_obj an sl fields A S hA hS]
    simp only [getKey]
    rw [lookupKey_setKey_ne _ _ _ _ (by decide), lookupKey_setKey_self]
    simp [lookupKey_setKey_self]
  | null => simp [getKey] at hA
  | bool b => simp [getKey] at hA
  | num n => simp [getKey] at hA
  | str s => simp [getKey] at hA
  | arr xs => simp [getKey] at hA

theorem updatedDoc_location (an sl : String) (v : Json) (A S : List (String × Json))
    (hA : getKey v "annotations" = some (Json.obj A))
    (hS : getKey v "sequence" = some (Json.obj S)) :
    (getKey (updatedDoc an sl v) "sequence").bind (fun s2 => getKey s2 "location") =
      some (Json.str sl) := by
  cases v with
  | obj fields =>
    simp only [getKey] at hA hS
    rw [updatedDoc_obj an sl fields A S hA hS]
    simp only [getKey]
    rw [lookupKey_setKey_self]
    simp [lookupKey_setKey_self]
  | null => simp [getKey] at hA
  | bool b => simp [getKey] at hA
  | num n => simp [getKey] at hA
  | str s => simp [getKey] at hA
  | arr xs => simp [getKey] at hA

theorem updatedDoc_other (an sl : String) (v : Json) (A S : List (String × Json))
    (hA : getKey v "annotations" = some (Json.obj A))
    (hS : getKey v "sequence" = some (Json.obj S))
    (k : String) (hk1 : k ≠ "annotations") (hk2 : k ≠ "sequence") :
    getKey (updatedDoc an sl v) k = getKey v k := by
  cases v with
  | obj fields =>
    simp only [getKey] at hA hS
    rw [updatedDoc_obj an sl fields A S hA hS]
    simp only [getKey]
    rw [lookupKey_setKey_ne _ _ _ _ hk2, lookupKey_setKey_ne _ _ _ _ hk1]
  | null => simp [getKey] at hA
  | bool b => simp [getKey] at hA
  | num n => simp [getKey] at hA
  | str s => simp [getKey] at hA
  | arr xs => simp [getKey] at hA

theorem patchEntry_fusion (an sl : String) (e : String × Content) (v : Json)
    (hf : strEnds ".fusion-data" e.1 = true)
    (hp : parseContent e.2 = some v) (A S : List (String × Json))
    (hA : getKey v "annotations" = some (Json.obj A))
    (hS : getKey v "sequence" = some (Json.obj S)) :
    patchEntry an sl e = .ok (e.1, .jsonPretty (updatedDoc an sl v)) := by
  cases v with
  | obj fields =>
    simp only [getKey] at hA hS
    simp [patchEntry, hf, hp, updateData_obj an sl fields A S hA hS,
      updatedDoc_obj an sl fields A S hA hS]
  | null => simp [getKey] at hA
  | bool b => simp [getKey] at hA
  | num n => simp [getKey] at hA
  | str s => simp [getKey] at hA
  | arr xs => simp [getKey] at hA

theorem patchAll_ok (an sl : String) (entries : List (String × Content))
    (h : ∀ e ∈ entries, ∃ e2, patchEntry an sl e = .ok e2) :
    patchAll an sl entries = .ok (entries.map (appliedPatch an sl)) := by
  induction entries with
  | nil => simp [patchAll]
  | cons e rest ih =>
    obtain ⟨e2, he2⟩ := h e (List.mem_cons_self e rest)
    have hrest := ih (fun x hx => h x (List.mem_cons_of_mem e hx))
    simp [patchAll, he2, hrest, appliedPatch]

/-! ### Filesystem lemmas -/

theorem lookupFileList_filter (l : List (String × Content))
    (keep : String × Content → Bool) (q : String)
    (h : ∀ c, keep (q, c) = true) :
    lookupFileList (l.filter keep) q = lookupFileList l q := by
  induction l with
  | nil => rfl
  | cons e rest ih =>
    obtain ⟨p0, c0⟩ := e
    by_cases hq : p0 = q
    · subst hq
      rw [List.filter_cons_of_pos (h c0)]
      simp [lookupFileList]
    · cases hk : keep (p0, c0) with
      | false => rw [List.filter_cons_of_neg (by simp [hk])]; simp [lookupFileList, hq, ih]
      | true => rw [List.filter_cons_of_pos hk]; simp [lookupFileList, hq, ih]

theorem lookupFile_removeSubtree (fs : FS) (p q : String)
    (h1 : strStarts (p ++ "/") q = false) (h2 : q ≠ p) :
    lookupFile (removeSubtree fs p) q = lookupFile fs q := by
  simp only [lookupFile, removeSubtree]
  exact lookupFileList_filter fs.files _ q (fun c => by simp [h1, h2])

theorem lookupFileList_setFileList_self (l : List (String × Content)) (p : String)
    (c : Content) : lookupFileList (setFileList l p c) p = some c := by
  induction l with
  | nil => simp [setFileList, lookupFileList]
  | cons e rest ih =>
    obtain ⟨p0, c0⟩ := e
    by_cases h : p0 = p
    · subst h; simp [setFileList, lookupFileList]
    · simp [setFileList, lookupFileList, h, ih]

theorem lookupFile_setFile_self (fs : FS) (p : String) (c : Content) :
    lookupFile (setFile fs p c) p = some c := by
  simp [lookupFile, setFile, lookupFileList_setFileList_self]

/-! ### C1: the Patcher rewrites every fusion-data entry and preserves
the other top-level fields -/

/-- C1.  For a located `-GC.zip` archive (not inside the Patcher's own
scratch directory) whose `.fusion-data` entries each parse to a JSON
object with object-shaped `annotations` and `sequence` fields, running
the Patcher with name `an` and location `sl` leaves the archive at the
same path holding the entrywise-patched entry list, and each patched
fusion-data entry keeps its name, re-parses with `annotations.name = an`
and `sequence.location = sl`, and agrees with its pre-patch document on
every other top-level field. -/
theorem patcher_round_trip (fs : FS) (dir an sl zpath : String)
    (entries : List (String × Content))
    (hfind : findGC fs dir = some zpath)
    (htemp : strStarts (dir ++ "/temp_unzip" ++ "/") zpath = false)
    (htempEq : zpath ≠ dir ++ "/temp_unzip")
    (hzip : lookupFile fs zpath = some (Content.zipData entries))
    (hwf : ∀ e ∈ entries, strEnds ".fusion-data" e.1 = true →
      ∃ v A S, parseContent e.2 = some v ∧
        getKey v "annotations" = some (Json.obj A) ∧
        getKey v "sequence" = some (Json.obj S)) :
    lookupFile (update_gc_zip_annotations fs dir an sl) zpath =
      some (Content.zipData (entries.map (appliedPatch an sl))) ∧
    ∀ e ∈ entries, (appliedPatch an sl e).1 = e.1 ∧
      (strEnds ".fusion-data" e.1 = true →
        ∀ v, parseContent e.2 = some v →
          parseContent (appliedPatch an sl e).2 = some (updatedDoc an sl v) ∧
          (getKey (updatedDoc an sl v) "annotations").bind (fun a => getKey a "name") =
            some (Json.str an) ∧
          (getKey (updatedDoc an sl v) "sequence").bind (fun s2 => getKey s2 "location") =
            some (Json.str sl) ∧
          ∀ k, k ≠ "annotations" → k ≠ "sequence" →
            getKey (updatedDoc an sl v) k = getKey v k) := by
  have hper : ∀ e ∈ entries, ∃ e2, patchEntry an sl e = .ok e2 := by
    intro e he
    by_cases hf : strEnds ".fusion-data" e.1 = true
    · obtain ⟨v, A, S, hp, hA, hS⟩ := hwf e he hf
      exact ⟨_, patchEntry_fusion an sl e v hf hp A S hA hS⟩
    · exact ⟨e, by simp [patchEntry, hf]⟩
  have hlk : lookupFile (removeSubtree fs (dir ++ "/temp_unzip")) zpath =
      some (Content.zipData entries) := by
    rw [lookupFile_removeSubtree fs _ zpath htemp htempEq]
    exact hzip
  constructor
  · simp only [update_gc_zip_annotations, hfind, hlk, patchAll_ok an sl entries hper]
    exact lookupFile_setFile_self _ _ _
  · intro e he
    constructor
    · by_cases hf : strEnds ".fusion-data" e.1 = true
      · obtain ⟨v, A, S, hp, hA, hS⟩ := hwf e he hf
        simp [appliedPatch, patchEntry_fusion an sl e v hf hp A S hA hS]
      · simp [appliedPatch, patchEntry, hf]
    · intro hf v hp
      obtain ⟨v0, A, S, hp0, hA, hS⟩ := hwf e he hf
      have hv : v0 = v := by rw [hp0] at hp; exact Option.some.inj hp
      subst hv
      refine ⟨?_, updatedDoc_name an sl v0 A S hA hS,
        updatedDoc_location an sl v0 A S hA hS,
        fun k hk1 hk2 => updatedDoc_other an sl v0 A S hA hS k hk1 hk2⟩
      simp [appliedPatch, patchEntry_fusion an sl e v0 hf hp0 A S hA hS, parseContent]

/-- Concrete archive entry list for the C1 witness. -/
def entC1 : List (String × Content) :=
  [("r.fusion-data", Content.jsonText
      (Json.obj [("annotations", Json.obj [("name", Json.str "old")]),
                 ("sequence", Json.obj [("location", Json.str "L")]),
                 ("extra", Json.num 1)]) 0),
   ("misc.txt", Content.rawText "m")]

/-- Concrete filesystem for the C1 witness. -/
def fsC1 : FS := ⟨[("D/x-GC.zip", Content.zipData entC1)], []⟩

/-- Witness for C1 at a one-archive filesystem with one fusion-data
entry and one passthrough entry. -/
theorem patcher_round_trip_witness :
    lookupFile (update_gc_zip_annotations fsC1 "D" "X" "Y") "D/x-GC.zip" =
      some (Content.zipData (entC1.map (appliedPatch "X" "Y"))) :=
  (patcher_round_trip fsC1 "D" "X" "Y" "D/x-GC.zip" entC1 rfl rfl (by decide) rfl
    (by
      intro e he hf
      simp only [entC1, List.mem_cons, List.not_mem_nil, or_false] at he
      rcases he with he | he
      · subst he
        exact ⟨_, [("name", Json.str "old")], [("location", Json.str "L")], rfl, rfl, rfl⟩
      · subst he
        exact absurd hf (by decide))).1

/-! ### C2: the Normalizer raises NameError before touching anything -/

/-- C2.  With the module imports as written (`glob` absent), every call
to `unzip_and_organize` raises `NameError` on its first line, before any
archive is extracted, moved or deleted, and returns the filesystem
unchanged. -/
theorem normalizer_always_raises_name_error (fs : FS) (data_folder : String) :
    unzip_and_organize glob_resolves fs data_folder = NormResult.err PyErr.nameError fs :=
  rfl

/-! ### C3: scratch-directory lifetime -/

/-- Filesystem with one corrupt top-level zip for the C3 counterexample. -/
def fsC3 : FS := ⟨[("D/bar.zip", Content.rawText "garbage")], []⟩

/-- State in which the Normalizer body aborts on `fsC3`: the corrupt
archive is still there and the scratch directory has been created but
never removed. -/
def fsC3err : FS := ⟨[("D/bar.zip", Content.rawText "garbage")], ["D/temp_extraction"]⟩

/-- C3 counterexample.  In an environment where the name `glob` resolves
(the only environments in which the Normalizer's extract/move code runs
at all), a single corrupt `.zip` makes `zipfile.ZipFile` raise after
`os.makedirs` has created `temp_extraction`; the exception propagates
out of `unzip_and_organize` (there is no handler) and the scratch
directory remains, refuting removal on every execution path. -/
theorem normalizer_scratch_left_on_error :
    unzip_and_organize true fsC3 "D" = NormResult.err PyErr.badZipFile fsC3err ∧
    dirExists fsC3err "D/temp_extraction" = true :=
  ⟨rfl, rfl⟩

theorem dirExists_removeSubtree (fs : FS) (p : String) :
    dirExists (removeSubtree fs p) p = false := by
  simp only [dirExists, removeSubtree, Bool.or_eq_false_iff, List.any_eq_false,
    List.mem_filter, Bool.and_eq_true, Bool.not_eq_true', decide_eq_true_eq]
  refine ⟨⟨?_, ?_⟩, ?_⟩
  · rintro d ⟨hd, h1, h2⟩
    simp [h2]
  · rintro e ⟨he, h1, h2⟩
    simp [h1]
  · rintro d ⟨hd, h1, h2⟩
    simp [h1]

theorem setFileList_names (l : List (String × Content)) (p : String) (c : Content)
    (h : lookupFileList l p ≠ none) :
    (setFileList l p c).map Prod.fst = l.map Prod.fst := by
  induction l with
  | nil => simp [lookupFileList] at h
  | cons e rest ih =>
    obtain ⟨p0, c0⟩ := e
    by_cases h0 : p0 = p
    · subst h0; simp [setFileList]
    · simp only [lookupFileList, h0, if_neg h0] at h
      simp [setFileList, h0, ih h]

theorem dirExists_setFile (fs : FS) (p q : String) (c : Content)
    (h : lookupFile fs p ≠ none) :
    dirExists (setFile fs p c) q = dirExists fs q := by
  have hn : (setFileList fs.files p c).map Prod.fst = fs.files.map Prod.fst :=
    setFileList_names fs.files p c h
  simp only [dirExists, setFile]
  have hany : ∀ (pr : String → Bool) (l1 l2 : List (String × Content)),
      l1.map Prod.fst = l2.map Prod.fst →
      (l1.any fun e => pr e.1) = (l2.any fun e => pr e.1) := by
    intro pr l1 l2 hmap
    have key : ∀ (l : List (String × Content)),
        (l.any fun e => pr e.1) = (l.map Prod.fst).any pr := by
      intro l
      induction l with
      | nil => rfl
      | cons e rest ih => simp [ih]
    rw [key, key, hmap]
  rw [hany _ _ _ hn]

theorem update_gc_scratch_gone (fs : FS) (dir an sl zpath : String)
    (hfind : findGC fs dir = some zpath) :
    dirExists (update_gc_zip_annotations fs dir an sl) (dir ++ "/temp_unzip") = false := by
  simp only [update_gc_zip_annotations, hfind]
  split
  · next entries heq =>
    split
    · exact dirExists_removeSubtree fs _
    · rw [dirExists_setFile _ _ _ _ (by rw [heq]; exact Option.noConfusion)]
      exact dirExists_removeSubtree fs _
  · exact dirExists_removeSubtree fs _
  · exact dirExists_removeSubtree fs _

theorem normStep_ok_scratch_gone (dir : String) (fs : FS) (z : String) (fs2 : FS)
    (h : normStep dir fs z = .ok fs2) :
    dirExists fs2 (dir ++ "/temp_extraction") = false := by
  simp only [normStep] at h
  split at h
  · split at h
    · exact Except.noConfusion h
    · injection h with h
      subst h
      exact dirExists_removeSubtree _ _
  · exact Except.noConfusion h
  · exact Except.noConfusion h

theorem normLoop_ok_scratch_gone (dir : String) (zs : List String) (fs fs2 : FS)
    (h0 : dirExists fs (dir ++ "/temp_extraction") = false)
    (h : normLoop dir zs fs = .ok fs2) :
    dirExists fs2 (dir ++ "/temp_extraction") = false := by
  induction zs generalizing fs with
  | nil =>
    simp only [normLoop] at h
    injection h with h
    subst h
    exact h0
  | cons z rest ih =>
    simp only [normLoop] at h
    cases hstep : normStep dir fs z with
    | error e => rw [hstep] at h; obtain ⟨e1, fse⟩ := e; exact NormResult.noConfusion h
    | ok fs1 =>
      rw [hstep] at h
      exact ih fs1 (normStep_ok_scratch_gone dir fs z fs1 hstep) h

/-- C3 amended.  The Patcher's `temp_unzip` scratch directory is indeed
purged on every execution path that gets past archive location (the
`finally` block); the Normalizer's `temp_extraction`, by contrast, is
only removed at the end of a successfully completed iteration, so it is
absent after a successful run (started without a stale scratch
directory), while an exception during extract or move leaves it behind
(and under the module's actual imports the Normalizer raises `NameError`
before ever creating it). -/
theorem scratch_dir_lifetimes :
    (∀ fs dir an sl zpath, findGC fs dir = some zpath →
      dirExists (update_gc_zip_annotations fs dir an sl) (dir ++ "/temp_unzip") = false) ∧
    (∀ fs dir fs2, dirExists fs (dir ++ "/temp_extraction") = false →
      unzip_and_organize true fs dir = NormResult.ok fs2 →
      dirExists fs2 (dir ++ "/temp_extraction") = false) :=
  ⟨fun fs dir an sl zpath hfind => update_gc_scratch_gone fs dir an sl zpath hfind,
   fun fs dir fs2 h0 h => normLoop_ok_scratch_gone dir (globZips fs dir) fs fs2 h0 h⟩

/-- Concrete filesystem with a GC archive, for the C3 witness. -/
def fsC3w : FS := ⟨[("D/a-GC.zip", Content.zipData [])], []⟩

/-- Concrete single-folder-archive filesystem for the C3 witness. -/
def fsC3w2 : FS := ⟨[("D/foo.zip", Content.zipData [("foo/a.txt", Content.rawText "h")])], ["D"]⟩

/-- Witness for the amended C3 at concrete inputs on both branches. -/
theorem scratch_dir_lifetimes_witness :
    dirExists (update_gc_zip_annotations fsC3w "D" "x" "y") "D/temp_unzip" = false ∧
    dirExists (⟨[("D/foo/a.txt", Content.rawText "h")], ["D"]⟩ : FS) "D/temp_extraction" = false :=
  ⟨scratch_dir_lifetimes.1 fsC3w "D" "x" "y" "D/a-GC.zip" rfl,
   scratch_dir_lifetimes.2 fsC3w2 "D" _ rfl rfl⟩

/-! ### C6: the Normalizer scenario never happens because the module
never imports glob -/

/-- Directory `D` containing `foo.zip` whose sole top-level entry is the
folder `foo` holding `a.txt` (the C6 scenario input). -/
def fsC6 : FS := ⟨[("D/foo.zip", Content.zipData [("foo/a.txt", Content.rawText "hello")])], ["D"]⟩

/-- C6 (code bug).  On the scenario input, the Normalizer as written
raises `NameError` at its first line (the module never imports `glob`),
so `D/foo.zip` is still present, `D/foo/a.txt` is never created, and the
claimed normalisation does not take place. -/
theorem normalizer_scenario_blocked_by_name_error :
    unzip_and_organize glob_resolves fsC6 "D" = NormResult.err PyErr.nameError fsC6 ∧
    lookupFile fsC6 "D/foo.zip" =
      some (Content.zipData [("foo/a.txt", Content.rawText "hello")]) ∧
    lookupFile fsC6 "D/foo/a.txt" = none :=
  ⟨rfl, rfl, rfl⟩

/-! ### C7: directories with no GC archive are left untouched -/

/-- C7.  When no file under the directory ends in `-GC.zip`, the Patcher
returns the filesystem unchanged and the Analyzer returns its
no-archive-found report; both return normally (their return types allow
no escaping exception on this path, matching the early `return` in the
source). -/
theorem no_gc_archive_noop (fs : FS) (dir an sl : String)
    (h : findGC fs dir = none) :
    update_gc_zip_annotations fs dir an sl = fs ∧
    analyze_annotations fs dir = AnalyzerResult.noZipFound := by
  constructor
  · simp [update_gc_zip_annotations, h]
  · simp [analyze_annotations, h]

/-- Concrete GC-archive-free filesystem for the C7 witness. -/
def fsC7 : FS := ⟨[("D/data.txt", Content.rawText "x"), ("D/other.zip", Content.zipData [])], ["D"]⟩

/-- Witness for C7. -/
theorem no_gc_archive_noop_witness :
    update_gc_zip_annotations fsC7 "D" "a" "b" = fsC7 ∧
    analyze_annotations fsC7 "D" = AnalyzerResult.noZipFound :=
  no_gc_archive_noop fsC7 "D" "a" "b" rfl

/-! ### C10: a stale archive inside the source folder is listed in its
own replacement -/

theorem lookupFileList_mem (l : List (String × Content)) (p : String) (c : Content)
    (h : lookupFileList l p = some c) : (p, c) ∈ l := by
  induction l with
  | nil => exact Option.noConfusion h
  | cons e rest ih =>
    obtain ⟨p0, c0⟩ := e
    by_cases h0 : p0 = p
    · subst h0
      simp only [lookupFileList, if_pos rfl] at h
      injection h with h
      subst h
      exact List.mem_cons_self _ _
    · simp only [lookupFileList, if_neg h0] at h
      exact List.mem_cons_of_mem _ (ih h)

/-- C10.  If a file already exists at `zip_name` and that path lies
inside the source folder (and is not the excluded sentinel name), then
the archive written by `zip_folder` contains an entry named by that
file's path relative to the source folder: the file list is gathered by
the walk before the archive is reopened for writing. -/
theorem zip_folder_lists_pre_existing (fs : FS) (output_folder zip_name : String)
    (c : Content)
    (hin : lookupFile fs zip_name = some c)
    (hstart : strStarts (output_folder ++ "/") zip_name = true)
    (hbase : basename zip_name ≠ "holder.gitignore") :
    ∃ entries, lookupFile (zip_folder fs output_folder zip_name) zip_name =
        some (Content.zipData entries) ∧
      strDropN zip_name (strLen output_folder + 1) ∈ entries.map Prod.fst := by
  refine ⟨_, lookupFile_setFile_self _ _ _, ?_⟩
  have hmem : (zip_name, c) ∈ fs.files := lookupFileList_mem fs.files zip_name c hin
  have hftz : (zip_name, strDropN zip_name (strLen output_folder + 1)) ∈
      fs.files.filterMap (fun e =>
        if strStarts (output_folder ++ "/") e.1 && basename e.1 ≠ "holder.gitignore" then
          some (e.1, strDropN e.1 (strLen output_folder + 1))
        else none) := by
    rw [List.mem_filterMap]
    exact ⟨(zip_name, c), hmem, by simp [hstart, hbase]⟩
  rw [List.map_map]
  rw [List.mem_map]
  exact ⟨(zip_name, strDropN zip_name (strLen output_folder + 1)), hftz, rfl⟩

/-- Concrete source folder already holding its own output archive, for
the C10 witness. -/
def fsC10 : FS :=
  ⟨[("Output/a.txt", Content.rawText "A"), ("Output/output.zip", Content.zipData [])], []⟩

/-- Witness for C10. -/
theorem zip_folder_lists_pre_existing_witness :
    ∃ entries, lookupFile (zip_folder fsC10 "Output" "Output/output.zip") "Output/output.zip" =
        some (Content.zipData entries) ∧
      strDropN "Output/output.zip" (strLen "Output" + 1) ∈ entries.map Prod.fst :=
  zip_folder_lists_pre_existing fsC10 "Output" "Output/output.zip" (Content.zipData [])
    rfl rfl (by decide)

/-! ### Analyzer lemmas -/

/-- A document whose top level is an object holding an object-shaped
`annotations` field (the shape counted in `annotations:name`). -/
def hasAnnotationsObj (v : Json) : Bool :=
  match v with
  | .obj f =>
    match lookupKey f "annotations" with
    | some (.obj _) => true
    | _ => false
  | _ => false

/-- An archive entry the Analyzer tallies under `annotations:name`: a
`.fusion-data` entry whose content parses to an object with an
object-shaped `annotations` field. -/
def qualifies (e : String × Content) : Bool :=
  strEnds ".fusion-data" e.1 &&
    (match parseContent e.2 with
     | some v => hasAnnotationsObj v
     | none => false)

theorem sumCounts_bump (c : List (Json × Nat)) (k : Json) :
    sumCounts (bump c k) = sumCounts c + 1 := by
  induction c with
  | nil => simp [bump, sumCounts]
  | cons p rest ih =>
    by_cases h : keyEq p.1 k = true
    · simp only [bump, if_pos h, sumCounts]
      omega
    · simp only [bump, if_neg h, sumCounts, ih]
      omega

theorem nameTally_ok_sum (ns : List (Json × Nat)) (data : Json) (ns1 : List (Json × Nat))
    (h : nameTally ns data = .ok ns1) :
    sumCounts ns1 = sumCounts ns + (if hasAnnotationsObj data then 1 else 0) := by
  cases data with
  | obj f =>
    cases hlk : lookupKey f "annotations" with
    | none =>
      simp only [nameTally, pyIn, hlk, Option.isSome_none, if_neg Bool.false_ne_true] at h
      injection h with h
      subst h
      simp [hasAnnotationsObj, hlk]
    | some a =>
      simp only [nameTally, pyIn, hlk, Option.isSome_some, if_pos rfl, getItem] at h
      cases a with
      | obj af =>
        by_cases hh : hashable ((lookupKey af "name").getD (Json.str "No name field found")) = true
        · simp only [if_pos hh] at h
          injection h with h
          subst h
          simp [hasAnnotationsObj, hlk, sumCounts_bump]
        · simp only [if_neg hh] at h
          exact Except.noConfusion h
      | null =>
        injection h with h; subst h; simp [hasAnnotationsObj, hlk]
      | bool b =>
        injection h with h; subst h; simp [hasAnnotationsObj, hlk]
      | num n =>
        injection h with h; subst h; simp [hasAnnotationsObj, hlk]
      | str s =>
        injection h with h; subst h; simp [hasAnnotationsObj, hlk]
      | arr xs =>
        injection h with h; subst h; simp [hasAnnotationsObj, hlk]
  | arr xs =>
    by_cases hb : (xs.any (fun e => match e with | .str t => t == "annotations" | _ => false)) = true
    · simp only [nameTally, pyIn, if_pos hb, getItem] at h
      exact Except.noConfusion h
    · simp only [nameTally, pyIn, if_neg hb] at h
      injection h with h
      subst h
      simp [hasAnnotationsObj]
  | str s =>
    by_cases hb : strContains s "annotations" = true
    · simp only [nameTally, pyIn, if_pos hb, getItem] at h
      exact Except.noConfusion h
    · simp only [nameTally, pyIn, if_neg hb] at h
      injection h with h
      subst h
      simp [hasAnnotationsObj]
  | null => simp only [nameTally, pyIn] at h; exact Except.noConfusion h
  | bool b => simp only [nameTally, pyIn] at h; exact Except.noConfusion h
  | num n => simp only [nameTally, pyIn] at h; exact Except.noConfusion h

theorem processEntry_ok_sum (st : ACounters) (e : String × Content) (st1 : ACounters)
    (h : processEntry st e = .ok st1) :
    sumCounts st1.names = sumCounts st.names + (if qualifies e then 1 else 0) := by
  by_cases hf : strEnds ".fusion-data" e.1 = true
  · simp only [processEntry, if_pos hf] at h
    cases hp : parseContent e.2 with
    | none =>
      simp only [hp] at h
      injection h with h
      subst h
      simp [qualifies, hf, hp]
    | some data =>
      simp only [hp] at h
      cases hnt : nameTally st.names data with
      | error err => simp only [hnt] at h; exact Except.noConfusion h
      | ok ns1 =>
        simp only [hnt] at h
        cases hlt : locTally st.locs data with
        | error err => simp only [hlt] at h; exact Except.noConfusion h
        | ok ls1 =>
          simp only [hlt] at h
          injection h with h
          subst h
          simp only [qualifies, hf, hp, Bool.true_and]
          exact nameTally_ok_sum st.names data ns1 hnt
  · simp only [processEntry, if_neg hf] at h
    injection h with h
    subst h
    simp [qualifies, hf]

theorem analyzeEntries_ok_sum (l : List (String × Content)) (st st1 : ACounters)
    (h : analyzeEntries st l = .ok st1) :
    sumCounts st1.names = sumCounts st.names + List.countP qualifies l := by
  induction l generalizing st with
  | nil =>
    simp only [analyzeEntries] at h
    injection h with h
    subst h
    simp
  | cons e rest ih =>
    simp only [analyzeEntries] at h
    cases hpe : processEntry st e with
    | error err => rw [hpe] at h; exact Except.noConfusion h
    | ok stm =>
      rw [hpe] at h
      have h1 := ih stm h
      have h2 := processEntry_ok_sum st e stm hpe
      rw [List.countP_cons]
      omega

/-! ### C5: the name tally total counts exactly the entries with an
object-shaped annotations field -/

/-- C5.  Whenever the Analyzer completes its scan and reports tallies
(the only situation in which tallies are recorded and printed), the sum
of all `annotations:name` counts equals the number of `.fusion-data`
entries whose content parses to a JSON object with an object-shaped
`annotations` field, whether or not a `name` key is present (absent
names fall into the sentinel bucket, which is still counted). -/
theorem analyzer_name_tally_total (fs : FS) (dir zpath : String)
    (entries : List (String × Content)) (ns ls : List (Json × Nat)) (lg : List String)
    (hfind : findGC fs dir = some zpath)
    (hzip : lookupFile fs zpath = some (Content.zipData entries))
    (hres : analyze_annotations fs dir = AnalyzerResult.tallies ns ls lg) :
    sumCounts ns = List.countP qualifies entries := by
  simp only [analyze_annotations, hfind, hzip] at hres
  cases hae : analyzeEntries ⟨[], [], []⟩ entries with
  | error err => rw [hae] at hres; exact AnalyzerResult.noConfusion hres
  | ok st =>
    rw [hae] at hres
    injection hres with h1 h2 h3
    subst h1
    have := analyzeEntries_ok_sum entries ⟨[], [], []⟩ st hae
    simpa [sumCounts] using this

/-- Concrete archive for the C5 witness: one qualifying entry with a
name, one qualifying entry without a name key, one fusion entry whose
annotations field is not an object, and one non-fusion entry. -/
def fsC5 : FS := ⟨[("D/x-GC.zip", Content.zipData
  [("a.fusion-data", Content.jsonText
      (Json.obj [("annotations", Json.obj [("name", Json.str "n")])]) 0),
   ("b.fusion-data", Content.jsonPretty
      (Json.obj [("annotations", Json.obj [("other", Json.num 2)]),
                 ("sequence", Json.obj [("location", Json.str "L")])])),
   ("c.fusion-data", Content.jsonText (Json.obj [("annotations", Json.str "flat")]) 1),
   ("readme.txt", Content.rawText "hi")])], []⟩

/-- Witness for C5. -/
theorem analyzer_name_tally_total_witness :
    sumCounts [(Json.str "n", 1), (Json.str "No name field found", 1)] =
      List.countP qualifies
        [("a.fusion-data", Content.jsonText
            (Json.obj [("annotations", Json.obj [("name", Json.str "n")])]) 0),
         ("b.fusion-data", Content.jsonPretty
            (Json.obj [("annotations", Json.obj [("other", Json.num 2)]),
                       ("sequence", Json.obj [("location", Json.str "L")])])),
         ("c.fusion-data", Content.jsonText (Json.obj [("annotations", Json.str "flat")]) 1),
         ("readme.txt", Content.rawText "hi")] :=
  analyzer_name_tally_total fsC5 "D" "D/x-GC.zip" _
    [(Json.str "n", 1), (Json.str "No name field found", 1)]
    [(Json.str "L", 1)] [] rfl rfl rfl

/-! ### C8: per-entry isolation of JSON parse failures -/

/-- The two counters of a scan outcome (the tallies the Analyzer would
print), forgetting the log of skipped entries. -/
def resultCounters (r : Except PyErr ACounters) :
    Except PyErr (List (Json × Nat) × List (Json × Nat)) :=
  r.map (fun st => (st.names, st.locs))

theorem processEntry_log (ns ls : List (Json × Nat)) (lg : List String)
    (e : String × Content) :
    processEntry ⟨ns, ls, lg⟩ e =
      match processEntry ⟨ns, ls, []⟩ e with
      | .ok st => .ok ⟨st.names, st.locs, lg ++ st.log⟩
      | .error err => .error err := by
  by_cases hf : strEnds ".fusion-data" e.1 = true
  · simp only [processEntry, if_pos hf]
    cases hp : parseContent e.2 with
    | none => simp [hp]
    | some data =>
      cases hnt : nameTally ns data with
      | error err => simp [hp, hnt]
      | ok ns1 =>
        cases hlt : locTally ls data with
        | error err => simp [hp, hnt, hlt]
        | ok ls1 => simp [hp, hnt, hlt]
  · simp only [processEntry, if_neg hf]
    simp

theorem analyzeEntries_log (l : List (String × Content)) (ns ls : List (Json × Nat))
    (lg : List String) :
    analyzeEntries ⟨ns, ls, lg⟩ l =
      match analyzeEntries ⟨ns, ls, []⟩ l with
      | .ok st => .ok ⟨st.names, st.locs, lg ++ st.log⟩
      | .error err => .error err := by
  induction l generalizing ns ls lg with
  | nil => simp [analyzeEntries]
  | cons e rest ih =>
    simp only [analyzeEntries]
    rw [processEntry_log ns ls lg e]
    cases hpe : processEntry ⟨ns, ls, []⟩ e with
    | error err => simp
    | ok st =>
      simp only []
      have hst : st = ⟨st.names, st.locs, st.log⟩ := rfl
      rw [hst] at hpe
      rw [ih st.names st.locs (lg ++ st.log), ih st.names st.locs st.log]
      cases hb : analyzeEntries ⟨st.names, st.locs, []⟩ rest with
      | error err => simp
      | ok st2 => simp

/-- C8.  Splicing one `.fusion-data` entry with unparseable content into
the Analyzer's entry stream never changes either tally (the scan aborts
in the same way or completes with the same counters as without it), and
whenever the scan completes, the bad entry's name appears in the log of
skipped entries.  In particular one malformed entry neither aborts the
scan nor suppresses the tallies of the other entries. -/
theorem analyzer_isolates_invalid_entries (xs ys : List (String × Content))
    (n s : String) (ns0 ls0 : List (Json × Nat)) (lg0 : List String)
    (hfus : strEnds ".fusion-data" n = true) :
    resultCounters (analyzeEntries ⟨ns0, ls0, lg0⟩ (xs ++ (n, Content.rawText s) :: ys)) =
      resultCounters (analyzeEntries ⟨ns0, ls0, lg0⟩ (xs ++ ys)) ∧
    ∀ st1, analyzeEntries ⟨ns0, ls0, lg0⟩ (xs ++ (n, Content.rawText s) :: ys) = .ok st1 →
      n ∈ st1.log := by
  induction xs generalizing ns0 ls0 lg0 with
  | nil =>
    have hpe : processEntry ⟨ns0, ls0, lg0⟩ (n, Content.rawText s) =
        .ok ⟨ns0, ls0, lg0 ++ [n]⟩ := by
      simp [processEntry, hfus, parseContent]
    constructor
    · simp only [List.nil_append, analyzeEntries, hpe]
      rw [analyzeEntries_log ys ns0 ls0 (lg0 ++ [n]), analyzeEntries_log ys ns0 ls0 lg0]
      cases analyzeEntries ⟨ns0, ls0, []⟩ ys with
      | error err => simp [resultCounters]
      | ok st2 => simp [resultCounters, Except.map]
    · intro st1 h1
      simp only [List.nil_append, analyzeEntries, hpe] at h1
      rw [analyzeEntries_log ys ns0 ls0 (lg0 ++ [n])] at h1
      cases hb : analyzeEntries ⟨ns0, ls0, []⟩ ys with
      | error err => rw [hb] at h1; exact Except.noConfusion h1
      | ok st2 =>
        rw [hb] at h1
        injection h1 with h1
        subst h1
        simp
  | cons x xs ih =>
    simp only [List.cons_append, analyzeEntries]
    cases hpe : processEntry ⟨ns0, ls0, lg0⟩ x with
    | error err =>
      constructor
      · rfl
      · intro st1 h1
        exact Except.noConfusion h1
    | ok stm =>
      have hstm : stm = ⟨stm.names, stm.locs, stm.log⟩ := rfl
      rw [hstm]
      exact ih stm.names stm.locs stm.log

/-- Entry lists for the C8 witness: a malformed fusion-data entry is
spliced between two well-formed ones. -/
def entC8a : List (String × Content) :=
  [("a.fusion-data", Content.jsonText
      (Json.obj [("annotations", Json.obj [("name", Json.str "x")])]) 0)]

/-- Tail entries for the C8 witness. -/
def entC8b : List (String × Content) :=
  [("z.fusion-data", Content.jsonText
      (Json.obj [("sequence", Json.obj [("location", Json.str "loc")])]) 0)]

/-- Witness for C8. -/
theorem analyzer_isolates_invalid_entries_witness :
    resultCounters (analyzeEntries ⟨[], [], []⟩
        (entC8a ++ ("bad.fusion-data", Content.rawText "junk") :: entC8b)) =
      resultCounters (analyzeEntries ⟨[], [], []⟩ (entC8a ++ entC8b)) ∧
    "bad.fusion-data" ∈
      (⟨[(Json.str "x", 1)], [(Json.str "loc", 1)], ["bad.fusion-data"]⟩ : ACounters).log :=
  ⟨(analyzer_isolates_invalid_entries entC8a entC8b "bad.fusion-data" "junk" [] [] [] rfl).1,
   (analyzer_isolates_invalid_entries entC8a entC8b "bad.fusion-data" "junk" [] [] [] rfl).2
     ⟨[(Json.str "x", 1)], [(Json.str "loc", 1)], ["bad.fusion-data"]⟩ rfl⟩

/-! ### C9: non-object top levels and the operation-level handler -/

/-- Archive whose fusion-data entries are an object and an array: the
array entry passes the membership tests (returning false) and the scan
completes with the object entry tallied. -/
def fsC9 : FS := ⟨[("D/x-GC.zip", Content.zipData
  [("a.fusion-data", Content.jsonText
      (Json.obj [("annotations", Json.obj [("name", Json.str "n")])]) 0),
   ("b.fusion-data", Content.jsonText (Json.arr [Json.num 1]) 0)])], []⟩

/-- C9 counterexample.  An entry parsing to a JSON array has a
non-object top level, yet Python `"annotations" in [1]` succeeds (it is
`False`), so the Analyzer does not raise: the scan completes and the
tallies of the other entries are printed, contrary to the claimed
unconditional abort for non-object top levels. -/
theorem analyzer_array_entry_completes :
    analyze_annotations fsC9 "D" =
      AnalyzerResult.tallies [(Json.str "n", 1)] [] [] ∧
    analyze_annotations fsC9 "D" ≠ AnalyzerResult.opError PyErr.typeError :=
  ⟨rfl, fun h => AnalyzerResult.noConfusion (rfl.trans h : AnalyzerResult.tallies
      [(Json.str "n", 1)] [] [] = AnalyzerResult.opError PyErr.typeError)⟩

theorem nameTally_error (ns : List (Json × Nat)) (data : Json) (err : PyErr)
    (h : nameTally ns data = .error err) : err = PyErr.typeError := by
  cases data with
  | obj f =>
    cases hlk : lookupKey f "annotations" with
    | none =>
      simp only [nameTally, pyIn, hlk, Option.isSome_none, if_neg Bool.false_ne_true] at h
      exact Except.noConfusion h
    | some a =>
      simp only [nameTally, pyIn, hlk, Option.isSome_some, if_pos rfl, getItem] at h
      cases a with
      | obj af =>
        by_cases hh : hashable ((lookupKey af "name").getD (Json.str "No name field found")) = true
        · simp only [if_pos hh] at h
          exact Except.noConfusion h
        · simp only [if_neg hh] at h
          injection h with h
          exact h.symm
      | null => exact Except.noConfusion h
      | bool b => exact Except.noConfusion h
      | num n => exact Except.noConfusion h
      | str s => exact Except.noConfusion h
      | arr xs => exact Except.noConfusion h
  | arr xs =>
    by_cases hb : (xs.any (fun e => match e with | .str t => t == "annotations" | _ => false)) = true
    · simp only [nameTally, pyIn, if_pos hb, getItem] at h
      injection h with h
      exact h.symm
    · simp only [nameTally, pyIn, if_neg hb] at h
      exact Except.noConfusion h
  | str s =>
    by_cases hb : strContains s "annotations" = true
    · simp only [nameTally, pyIn, if_pos hb, getItem] at h
      injection h with h
      exact h.symm
    · simp only [nameTally, pyIn, if_neg hb] at h
      exact Except.noConfusion h
  | null =>
    simp only [nameTally, pyIn] at h
    injection h with h
    exact h.symm
  | bool b =>
    simp only [nameTally, pyIn] at h
    injection h with h
    exact h.symm
  | num n =>
    simp only [nameTally, pyIn] at h
    injection h with h
    exact h.symm

theorem locTally_error (ls : List (Json × Nat)) (data : Json) (err : PyErr)
    (h : locTally ls data = .error err) : err = PyErr.typeError := by
  cases data with
  | obj f =>
    cases hlk : lookupKey f "sequence" with
    | none =>
      simp only [locTally, pyIn, hlk, Option.isSome_none, if_neg Bool.false_ne_true] at h
      exact Except.noConfusion h
    | some a =>
      simp only [locTally, pyIn, hlk, Option.isSome_some, if_pos rfl, getItem] at h
      cases a with
      | obj af =>
        by_cases hh : hashable ((lookupKey af "location").getD (Json.str "No location field found")) = true
        · simp only [if_pos hh] at h
          exact Except.noConfusion h
        · simp only [if_neg hh] at h
          injection h with h
          exact h.symm
      | null => exact Except.noConfusion h
      | bool b => exact Except.noConfusion h
      | num n => exact Except.noConfusion h
      | str s => exact Except.noConfusion h
      | arr xs => exact Except.noConfusion h
  | arr xs =>
    by_cases hb : (xs.any (fun e => match e with | .str t => t == "sequence" | _ => false)) = true
    · simp only [locTally, pyIn, if_pos hb, getItem] at h
      injection h with h
      exact h.symm
    · simp only [locTally, pyIn, if_neg hb] at h
      exact Except.noConfusion h
  | str s =>
    by_cases hb : strContains s "sequence" = true
    · simp only [locTally, pyIn, if_pos hb, getItem] at h
      injection h with h
      exact h.symm
    · simp only [locTally, pyIn, if_neg hb] at h
      exact Except.noConfusion h
  | null =>
    simp only [locTally, pyIn] at h
    injection h with h
    exact h.symm
  | bool b =>
    simp only [locTally, pyIn] at h
    injection h with h
    exact h.symm
  | num n =>
    simp only [locTally, pyIn] at h
    injection h with h
    exact h.symm

theorem processEntry_error (st : ACounters) (e : String × Content) (err : PyErr)
    (h : processEntry st e = .error err) : err = PyErr.typeError := by
  by_cases hf : strEnds ".fusion-data" e.1 = true
  · simp only [processEntry, if_pos hf] at h
    cases hp : parseContent e.2 with
    | none =>
      simp only [hp] at h
      exact Except.noConfusion h
    | some data =>
      simp only [hp] at h
      cases hnt : nameTally st.names data with
      | error e1 =>
        simp only [hnt] at h
        injection h with h
        rw [← h]
        exact nameTally_error st.names data e1 hnt
      | ok ns1 =>
        simp only [hnt] at h
        cases hlt : locTally st.locs data with
        | error e2 =>
          simp only [hlt] at h
          injection h with h
          rw [← h]
          exact locTally_error st.locs data e2 hlt
        | ok ls1 =>
          simp only [hlt] at h
          exact Except.noConfusion h
  · simp only [processEntry, if_neg hf] at h
    exact Except.noConfusion h

theorem analyzeEntries_scalar_error (l : List (String × Content)) (st : ACounters)
    (hsc : ∃ e ∈ l, strEnds ".fusion-data" e.1 = true ∧
      ∃ v, parseContent e.2 = some v ∧ nonIterable v = true) :
    analyzeEntries st l = .error PyErr.typeError := by
  induction l generalizing st with
  | nil =>
    obtain ⟨e, he, _⟩ := hsc
    exact absurd he (List.not_mem_nil e)
  | cons x rest ih =>
    obtain ⟨e, he, hfus, v, hp, hni⟩ := hsc
    rcases List.mem_cons.mp he with he | he
    · subst he
      have hnt : nameTally st.names v = .error PyErr.typeError := by
        cases v with
        | null => simp [nameTally, pyIn]
        | bool b => simp [nameTally, pyIn]
        | num n => simp [nameTally, pyIn]
        | str s => simp [nonIterable] at hni
        | arr xs => simp [nonIterable] at hni
        | obj f => simp [nonIterable] at hni
      simp [analyzeEntries, processEntry, hfus, hp, hnt]
    · cases hpe : processEntry st x with
      | error err =>
        have herr := processEntry_error st x err hpe
        subst herr
        simp [analyzeEntries, hpe]
      | ok st1 =>
        simp only [analyzeEntries, hpe]
        exact ih st1 ⟨e, he, hfus, v, hp, hni⟩

/-- C9 amended.  If some `.fusion-data` entry of the scanned archive
parses to a top-level number, boolean or `null` (the JSON top levels on
which Python's membership test is a `TypeError`), the Analyzer's scan
raises `TypeError`, which the per-entry handler (which only catches
`JSONDecodeError`) does not catch; the operation-level handler catches
it and the function returns having printed no tallies at all.  Top-level
arrays and strings, by contrast, support the membership test and do not
by themselves abort the scan. -/
theorem analyzer_scalar_top_level_aborts (fs : FS) (dir zpath : String)
    (entries : List (String × Content))
    (hfind : findGC fs dir = some zpath)
    (hzip : lookupFile fs zpath = some (Content.zipData entries))
    (hsc : ∃ e ∈ entries, strEnds ".fusion-data" e.1 = true ∧
      ∃ v, parseContent e.2 = some v ∧ nonIterable v = true) :
    analyze_annotations fs dir = AnalyzerResult.opError PyErr.typeError := by
  simp [analyze_annotations, hfind, hzip,
    analyzeEntries_scalar_error entries ⟨[], [], []⟩ hsc]

/-- Archive holding a counted object entry followed by a bare-number
entry, for the C9 witness. -/
def fsC9w : FS := ⟨[("D/x-GC.zip", Content.zipData
  [("a.fusion-data", Content.jsonText
      (Json.obj [("annotations", Json.obj [("name", Json.str "n")])]) 0),
   ("d.fusion-data", Content.jsonText (Json.num 5) 0)])], []⟩

/-- Witness for the amended C9. -/
theorem analyzer_scalar_top_level_aborts_witness :
    analyze_annotations fsC9w "D" = AnalyzerResult.opError PyErr.typeError :=
  analyzer_scalar_top_level_aborts fsC9w "D" "D/x-GC.zip" _ rfl rfl
    ⟨("d.fusion-data", Content.jsonText (Json.num 5) 0),
     by simp, rfl, Json.num 5, rfl, rfl⟩

/-! ### C4: idempotence machinery -/

/-- The annotations half of the edit step on an object document's field
list: if the `annotations` field holds an object, overwrite its `name`
(on objects this code never raises). -/
def annStep (annotation_name : String) (f : List (String × Json)) :
    List (String × Json) :=
  match lookupKey f "annotations" with
  | some (Json.obj af) =>
    setKey f "annotations" (Json.obj (setKey af "name" (Json.str annotation_name)))
  | _ => f

/-- The sequence half of the edit step on an object document's field
list. -/
def seqStep (sequence_location : String) (f : List (String × Json)) :
    List (String × Json) :=
  match lookupKey f "sequence" with
  | some (Json.obj sf) =>
    setKey f "sequence" (Json.obj (setKey sf "location" (Json.str sequence_location)))
  | _ => f

/-- The whole edit step on an object document's field list. -/
def updateObjFields (annotation_name sequence_location : String)
    (f : List (String × Json)) : List (String × Json) :=
  seqStep sequence_location (annStep annotation_name f)

theorem updateData_obj_total (an sl : String) (f : List (String × Json)) :
    updateData an sl (Json.obj f) = .ok (Json.obj (updateObjFields an sl f)) := by
  have hstep : ∀ (g : List (String × Json)),
      (match pyIn "sequence" (Json.obj g) with
        | .error e => (.error e : Except PyErr Json)
        | .ok bSeq =>
          if bSeq then
            match getItem (Json.obj g) "sequence" with
            | .error e => .error e
            | .ok (.obj sf) =>
              .ok (setTop (Json.obj g) "sequence" (.obj (setKey sf "location" (.str sl))))
            | .ok _ => .ok (Json.obj g)
          else .ok (Json.obj g)) = .ok (Json.obj (seqStep sl g)) := by
    intro g
    cases hlkS : lookupKey g "sequence" with
    | none => simp [pyIn, hlkS, seqStep]
    | some s0 =>
      cases s0 with
      | obj sf => simp [pyIn, hlkS, getItem, setTop, seqStep]
      | null => simp [pyIn, hlkS, getItem, seqStep]
      | bool b => simp [pyIn, hlkS, getItem, seqStep]
      | num n => simp [pyIn, hlkS, getItem, seqStep]
      | str s => simp [pyIn, hlkS, getItem, seqStep]
      | arr xs => simp [pyIn, hlkS, getItem, seqStep]
  cases hlkA : lookupKey f "annotations" with
  | none =>
    have hann : annStep an f = f := by simp [annStep, hlkA]
    simp only [updateData, pyIn, hlkA, Option.isSome_none, if_neg Bool.false_ne_true,
      updateObjFields, hann]
    exact hstep f
  | some a0 =>
    cases a0 with
    | obj af =>
      have hann : annStep an f =
          setKey f "annotations" (Json.obj (setKey af "name" (Json.str an))) := by
        simp [annStep, hlkA]
      simp only [updateData, pyIn, hlkA, Option.isSome_some, if_pos rfl, getItem, setTop,
        updateObjFields, hann]
      exact hstep _
    | null =>
      have hann : annStep an f = f := by simp [annStep, hlkA]
      simp only [updateData, pyIn, hlkA, Option.isSome_some, if_pos rfl, getItem,
        updateObjFields, hann]
      exact hstep f
    | bool b =>
      have hann : annStep an f = f := by simp [annStep, hlkA]
      simp only [updateData, pyIn, hlkA, Option.isSome_some, if_pos rfl, getItem,
        updateObjFields, hann]
      exact hstep f
    | num n =>
      have hann : annStep an f = f := by simp [annStep, hlkA]
      simp only [updateData, pyIn, hlkA, Option.isSome_some, if_pos rfl, getItem,
        updateObjFields, hann]
      exact hstep f
    | str s =>
      have hann : annStep an f = f := by simp [annStep, hlkA]
      simp only [updateData, pyIn, hlkA, Option.isSome_some, if_pos rfl, getItem,
        updateObjFields, hann]
      exact hstep f
    | arr xs =>
      have hann : annStep an f = f := by simp [annStep, hlkA]
      simp only [updateData, pyIn, hlkA, Option.isSome_some, if_pos rfl, getItem,
        updateObjFields, hann]
      exact hstep f

theorem annStep_of_fix (an : String) (g : List (String × Json))
    (hg : ∀ af, lookupKey g "annotations" = some (Json.obj af) →
      setKey af "name" (Json.str an) = af) :
    annStep an g = g := by
  cases hlk : lookupKey g "annotations" with
  | none => simp [annStep, hlk]
  | some a0 =>
    cases a0 with
    | obj af =>
      simp only [annStep, hlk, hg af hlk]
      exact setKey_self g "annotations" (Json.obj af) hlk
    | null => simp [annStep, hlk]
    | bool b => simp [annStep, hlk]
    | num n => simp [annStep, hlk]
    | str s => simp [annStep, hlk]
    | arr xs => simp [annStep, hlk]

theorem seqStep_of_fix (sl : String) (g : List (String × Json))
    (hg : ∀ sf, lookupKey g "sequence" = some (Json.obj sf) →
      setKey sf "location" (Json.str sl) = sf) :
    seqStep sl g = g := by
  cases hlk : lookupKey g "sequence" with
  | none => simp [seqStep, hlk]
  | some s0 =>
    cases s0 with
    | obj sf =>
      simp only [seqStep, hlk, hg sf hlk]
      exact setKey_self g "sequence" (Json.obj sf) hlk
    | null => simp [seqStep, hlk]
    | bool b => simp [seqStep, hlk]
    | num n => simp [seqStep, hlk]
    | str s => simp [seqStep, hlk]
    | arr xs => simp [seqStep, hlk]

theorem lookup_ann_annStep (an : String) (f : List (String × Json)) (af : List (String × Json))
    (haf : lookupKey (annStep an f) "annotations" = some (Json.obj af)) :
    setKey af "name" (Json.str an) = af := by
  cases hlkA : lookupKey f "annotations" with
  | none =>
    rw [show annStep an f = f from by simp [annStep, hlkA], hlkA] at haf
    exact Option.noConfusion haf
  | some a0 =>
    cases a0 with
    | obj af0 =>
      rw [show annStep an f =
          setKey f "annotations" (Json.obj (setKey af0 "name" (Json.str an))) from by
            simp [annStep, hlkA],
        lookupKey_setKey_self] at haf
      injection haf with haf
      injection haf with haf
      subst haf
      exact setKey_self _ _ _ (lookupKey_setKey_self af0 "name" (Json.str an))
    | null =>
      rw [show annStep an f = f from by simp [annStep, hlkA], hlkA] at haf
      injection haf with haf
      exact Json.noConfusion haf
    | bool b =>
      rw [show annStep an f = f from by simp [annStep, hlkA], hlkA] at haf
      injection haf with haf
      exact Json.noConfusion haf
    | num n =>
      rw [show annStep an f = f from by simp [annStep, hlkA], hlkA] at haf
      injection haf with haf
      exact Json.noConfusion haf
    | str s =>
      rw [show annStep an f = f from by simp [annStep, hlkA], hlkA] at haf
      injection haf with haf
      exact Json.noConfusion haf
    | arr xs =>
      rw [show annStep an f = f from by simp [annStep, hlkA], hlkA] at haf
      injection haf with haf
      exact Json.noConfusion haf

theorem lookup_seq_seqStep (sl : String) (g : List (String × Json)) (sf : List (String × Json))
    (hsf : lookupKey (seqStep sl g) "sequence" = some (Json.obj sf)) :
    setKey sf "location" (Json.str sl) = sf := by
  cases hlkS : lookupKey g "sequence" with
  | none =>
    rw [show seqStep sl g = g from by simp [seqStep, hlkS], hlkS] at hsf
    exact Option.noConfusion hsf
  | some s0 =>
    cases s0 with
    | obj sf0 =>
      rw [show seqStep sl g =
          setKey g "sequence" (Json.obj (setKey sf0 "location" (Json.str sl))) from by
            simp [seqStep, hlkS],
        lookupKey_setKey_self] at hsf
      injection hsf with hsf
      injection hsf with hsf
      subst hsf
      exact setKey_self _ _ _ (lookupKey_setKey_self sf0 "location" (Json.str sl))
    | null =>
      rw [show seqStep sl g = g from by simp [seqStep, hlkS], hlkS] at hsf
      injection hsf with hsf
      exact Json.noConfusion hsf
    | bool b =>
      rw [show seqStep sl g = g from by simp [seqStep, hlkS], hlkS] at hsf
      injection hsf with hsf
      exact Json.noConfusion hsf
    | num n =>
      rw [show seqStep sl g = g from by simp [seqStep, hlkS], hlkS] at hsf
      injection hsf with hsf
      exact Json.noConfusion hsf
    | str s =>
      rw [show seqStep sl g = g from by simp [seqStep, hlkS], hlkS] at hsf
      injection hsf with hsf
      exact Json.noConfusion hsf
    | arr xs =>
      rw [show seqStep sl g = g from by simp [seqStep, hlkS], hlkS] at hsf
      injection hsf with hsf
      exact Json.noConfusion hsf

theorem lookup_ann_seqStep (sl : String) (g : List (String × Json)) :
    lookupKey (seqStep sl g) "annotations" = lookupKey g "annotations" := by
  cases hlkS : lookupKey g "sequence" with
  | none => simp [seqStep, hlkS]
  | some s0 =>
    cases s0 with
    | obj sf =>
      simp only [seqStep, hlkS]
      exact lookupKey_setKey_ne _ _ _ _ (by decide)
    | null => simp [seqStep, hlkS]
    | bool b => simp [seqStep, hlkS]
    | num n => simp [seqStep, hlkS]
    | str s => simp [seqStep, hlkS]
    | arr xs => simp [seqStep, hlkS]

theorem updateObjFields_idem (an sl : String) (f : List (String × Json)) :
    updateObjFields an sl (updateObjFields an sl f) = updateObjFields an sl f := by
  have h1 : annStep an (seqStep sl (annStep an f)) = seqStep sl (annStep an f) := by
    apply annStep_of_fix
    intro af haf
    rw [lookup_ann_seqStep] at haf
    exact lookup_ann_annStep an f af haf
  have h2 : seqStep sl (seqStep sl (annStep an f)) = seqStep sl (annStep an f) := by
    apply seqStep_of_fix
    intro sf hsf
    exact lookup_seq_seqStep sl (annStep an f) sf hsf
  simp only [updateObjFields, h1, h2]

theorem updateData_idem (an sl : String) (v v2 : Json)
    (h : updateData an sl v = .ok v2) : updateData an sl v2 = .ok v2 := by
  cases v with
  | obj f =>
    rw [updateData_obj_total] at h
    injection h with h
    subst h
    rw [updateData_obj_total, updateObjFields_idem]
  | null => simp only [updateData, pyIn] at h; exact Except.noConfusion h
  | bool b => simp only [updateData, pyIn] at h; exact Except.noConfusion h
  | num n => simp only [updateData, pyIn] at h; exact Except.noConfusion h
  | str s =>
    by_cases hbA : strContains s "annotations" = true
    · simp only [updateData, pyIn, if_pos hbA, getItem] at h
      exact Except.noConfusion h
    · simp only [updateData, pyIn, if_neg hbA] at h
      by_cases hbS : strContains s "sequence" = true
      · simp only [if_pos hbS, getItem] at h
        exact Except.noConfusion h
      · simp only [if_neg hbS] at h
        injection h with h
        subst h
        simp only [updateData, pyIn, if_neg hbA, if_neg hbS]
  | arr xs =>
    by_cases hbA : (xs.any (fun e => match e with | .str t => t == "annotations" | _ => false)) = true
    · simp only [updateData, pyIn, if_pos hbA, getItem] at h
      exact Except.noConfusion h
    · simp only [updateData, pyIn, if_neg hbA] at h
      by_cases hbS : (xs.any (fun e => match e with | .str t => t == "sequence" | _ => false)) = true
      · simp only [if_pos hbS, getItem] at h
        exact Except.noConfusion h
      · simp only [if_neg hbS] at h
        injection h with h
        subst h
        simp only [updateData, pyIn, if_neg hbA, if_neg hbS]

theorem patchEntry_idem (an sl : String) (e e2 : String × Content)
    (h : patchEntry an sl e = .ok e2) : patchEntry an sl e2 = .ok e2 := by
  by_cases hf : strEnds ".fusion-data" e.1 = true
  · simp only [patchEntry, if_pos hf] at h
    cases hp : parseContent e.2 with
    | none =>
      simp only [hp] at h
      exact Except.noConfusion h
    | some v =>
      simp only [hp] at h
      cases hu : updateData an sl v with
      | error err =>
        simp only [hu] at h
        exact Except.noConfusion h
      | ok v2 =>
        simp only [hu] at h
        injection h with h
        subst h
        simp only [patchEntry, if_pos hf, parseContent, updateData_idem an sl v v2 hu]
  · simp only [patchEntry, if_neg hf] at h
    injection h with h
    subst h
    simp only [patchEntry, if_neg hf]

theorem patchAll_idem (an sl : String) (l l2 : List (String × Content))
    (h : patchAll an sl l = .ok l2) : patchAll an sl l2 = .ok l2 := by
  induction l generalizing l2 with
  | nil =>
    simp only [patchAll] at h
    injection h with h
    subst h
    rfl
  | cons e rest ih =>
    simp only [patchAll] at h
    cases hpe : patchEntry an sl e with
    | error err =>
      simp only [hpe] at h
      exact Except.noConfusion h
    | ok e2 =>
      simp only [hpe] at h
      cases hpr : patchAll an sl rest with
      | error err =>
        simp only [hpr] at h
        exact Except.noConfusion h
      | ok rest2 =>
        simp only [hpr] at h
        injection h with h
        subst h
        simp only [patchAll, patchEntry_idem an sl e e2 hpe, ih rest2 hpr]

theorem map_fst_filter (l : List (String × Content)) (q : String → Bool) :
    (l.filter (fun e => q e.1)).map Prod.fst = (l.map Prod.fst).filter q := by
  induction l with
  | nil => rfl
  | cons e rest ih =>
    cases hq : q e.1 with
    | true => simp [List.filter_cons, hq, ih]
    | false => simp [List.filter_cons, hq, ih]

theorem find?_filter {α : Type} (p keep : α → Bool) (l : List α) (z : α)
    (hz : l.find? p = some z) (hk : keep z = true) :
    (l.filter keep).find? p = some z := by
  induction l with
  | nil => exact Option.noConfusion hz
  | cons a rest ih =>
    cases hpa : p a with
    | true =>
      rw [List.find?_cons_of_pos rest hpa] at hz
      injection hz with hz
      subst hz
      rw [List.filter_cons_of_pos hk, List.find?_cons_of_pos _ hpa]
    | false =>
      rw [List.find?_cons_of_neg rest (by simp [hpa])] at hz
      cases hka : keep a with
      | true =>
        rw [List.filter_cons_of_pos hka, List.find?_cons_of_neg _ (by simp [hpa])]
        exact ih hz
      | false =>
        rw [List.filter_cons_of_neg (by simp [hka])]
        exact ih hz

/-- The condition for a path to survive `shutil.rmtree p`. -/
def survives (p q : String) : Bool := !(strStarts (p ++ "/") q) && q ≠ p

theorem findGC_removeSubtree (fs : FS) (dir p z : String)
    (hz : findGC fs dir = some z) (hk : survives p z = true) :
    findGC (removeSubtree fs p) dir = some z := by
  simp only [findGC, removeSubtree] at hz ⊢
  rw [show (fun (e : String × Content) => !strStarts (p ++ "/") e.1 && e.1 ≠ p) =
      (fun (e : String × Content) => survives p e.1) from by
        funext e; simp [survives]]
  rw [map_fst_filter]
  exact find?_filter _ _ _ z hz hk

theorem findGC_setFile (fs : FS) (dir z : String) (c : Content)
    (hpresent : lookupFile fs z ≠ none) :
    findGC (setFile fs z c) dir = findGC fs dir := by
  simp only [findGC, setFile]
  rw [setFileList_names fs.files z c hpresent]

theorem filter_self_again {α : Type} (l : List α) (q : α → Bool) :
    (l.filter q).filter q = l.filter q :=
  List.filter_eq_self.mpr (fun _ hx => (List.mem_filter.mp hx).2)

theorem removeSubtree_idem (fs : FS) (p : String) :
    removeSubtree (removeSubtree fs p) p = removeSubtree fs p := by
  simp only [removeSubtree]
  rw [filter_self_again, filter_self_again]

theorem mem_setFileList (l : List (String × Content)) (p : String) (c : Content) :
    ∀ x, x ∈ setFileList l p c → x ∈ l ∨ x.1 = p := by
  induction l with
  | nil =>
    intro x hx
    simp only [setFileList, List.mem_singleton] at hx
    subst hx
    exact Or.inr rfl
  | cons e rest ih =>
    intro x hx
    by_cases h0 : e.1 = p
    · rw [show setFileList (e :: rest) p c = (p, c) :: rest from by
        simp [setFileList, h0]] at hx
      rcases List.mem_cons.mp hx with hy | hy
      · subst hy; exact Or.inr rfl
      · exact Or.inl (List.mem_cons_of_mem _ hy)
    · rw [show setFileList (e :: rest) p c = e :: setFileList rest p c from by
        simp [setFileList, h0]] at hx
      rcases List.mem_cons.mp hx with hy | hy
      · subst hy; exact Or.inl (List.mem_cons_self _ _)
      · rcases ih x hy with h | h
        · exact Or.inl (List.mem_cons_of_mem _ h)
        · exact Or.inr h

theorem removeSubtree_setFile (fs : FS) (p z : String) (c : Content)
    (hk : survives p z = true) :
    removeSubtree (setFile (removeSubtree fs p) z c) p =
      setFile (removeSubtree fs p) z c := by
  have hfiles : (setFileList (removeSubtree fs p).files z c).filter
      (fun e => !(strStarts (p ++ "/") e.1) && e.1 ≠ p) =
      setFileList (removeSubtree fs p).files z c := by
    apply List.filter_eq_self.mpr
    intro x hx
    rcases mem_setFileList _ z c x hx with hy | hy
    · exact (List.mem_filter.mp hy).2
    · rw [hy]
      simpa [survives] using hk
  have hdirs : (setFile (removeSubtree fs p) z c).dirs.filter
      (fun d => !(strStarts (p ++ "/") d) && d ≠ p) =
      (setFile (removeSubtree fs p) z c).dirs := by
    simp only [setFile, removeSubtree]
    exact filter_self_again _ _
  simp only [removeSubtree, setFile] at hfiles hdirs ⊢
  rw [hfiles, hdirs]

theorem setFileList_again (l : List (String × Content)) (p : String) (c : Content) :
    setFileList (setFileList l p c) p c = setFileList l p c := by
  induction l with
  | nil => simp [setFileList]
  | cons e rest ih =>
    by_cases h0 : e.1 = p
    · obtain ⟨p0, c0⟩ := e
      simp only at h0
      subst h0
      simp [setFileList]
    · obtain ⟨p0, c0⟩ := e
      simp only at h0
      simp [setFileList, h0, ih]

/-- C4 counterexample input: a stale `temp_unzip` scratch directory
containing a GC archive, plus the real GC archive in a sibling
subdirectory visited later by the walk. -/
def fsC4 : FS :=
  ⟨[("D/temp_unzip/a-GC.zip", Content.zipData []),
    ("D/sub/b-GC.zip", Content.zipData
      [("r.fusion-data", Content.jsonText
          (Json.obj [("annotations", Json.obj [("name", Json.str "old")]),
                     ("sequence", Json.obj [("location", Json.str "oldloc")])]) 0)])],
   []⟩

/-- C4 counterexample.  On `fsC4` the first Patcher run locates the
stale archive inside `temp_unzip`, deletes it while clearing the scratch
directory, swallows the resulting `FileNotFoundError`, and patches
nothing; the second run then locates `D/sub/b-GC.zip` and rewrites its
entry.  The archive contents after the second run differ from those
after the first, so two successive runs are not idempotent. -/
theorem patcher_not_idempotent :
    lookupFile (update_gc_zip_annotations
        (update_gc_zip_annotations fsC4 "D" "X" "Y") "D" "X" "Y") "D/sub/b-GC.zip" =
      some (Content.zipData
        [("r.fusion-data", Content.jsonPretty
            (Json.obj [("annotations", Json.obj [("name", Json.str "X")]),
                       ("sequence", Json.obj [("location", Json.str "Y")])]))]) ∧
    lookupFile (update_gc_zip_annotations fsC4 "D" "X" "Y") "D/sub/b-GC.zip" =
      some (Content.zipData
        [("r.fusion-data", Content.jsonText
            (Json.obj [("annotations", Json.obj [("name", Json.str "old")]),
                       ("sequence", Json.obj [("location", Json.str "oldloc")])]) 0)]) ∧
    Content.jsonPretty
        (Json.obj [("annotations", Json.obj [("name", Json.str "X")]),
                   ("sequence", Json.obj [("location", Json.str "Y")])]) ≠
      Content.jsonText
        (Json.obj [("annotations", Json.obj [("name", Json.str "old")]),
                   ("sequence", Json.obj [("location", Json.str "oldloc")])]) 0 :=
  ⟨rfl, rfl, fun h => Content.noConfusion h⟩

/-- C4 amended.  Provided the archive the walk locates does not lie
inside the Patcher's own scratch directory `temp_unzip` (a stale archive
there is deleted, not patched), running the Patcher twice with the same
name and location is idempotent: the second run reproduces the first
run's filesystem, and in particular an archive with identical entry
contents. -/
theorem patcher_idempotent (fs : FS) (dir an sl : String)
    (H : ∀ z, findGC fs dir = some z → survives (dir ++ "/temp_unzip") z = true) :
    update_gc_zip_annotations (update_gc_zip_annotations fs dir an sl) dir an sl =
      update_gc_zip_annotations fs dir an sl := by
  cases hfind : findGC fs dir with
  | none =>
    have h1 : update_gc_zip_annotations fs dir an sl = fs := by
      simp [update_gc_zip_annotations, hfind]
    rw [h1, h1]
  | some z =>
    have hk := H z hfind
    have hpre : strStarts (dir ++ "/temp_unzip" ++ "/") z = false := by
      have := hk
      simp only [survives, Bool.and_eq_true, Bool.not_eq_true'] at this
      exact this.1
    have hne : z ≠ dir ++ "/temp_unzip" := by
      have := hk
      simp only [survives, Bool.and_eq_true, decide_eq_true_eq] at this
      exact this.2
    have hfind1 : findGC (removeSubtree fs (dir ++ "/temp_unzip")) dir = some z :=
      findGC_removeSubtree fs dir _ z hfind hk
    have hrm1 : removeSubtree (removeSubtree fs (dir ++ "/temp_unzip"))
        (dir ++ "/temp_unzip") = removeSubtree fs (dir ++ "/temp_unzip") :=
      removeSubtree_idem fs _
    cases hlk : lookupFile (removeSubtree fs (dir ++ "/temp_unzip")) z with
    | none =>
      have h1 : update_gc_zip_annotations fs dir an sl =
          removeSubtree fs (dir ++ "/temp_unzip") := by
        simp [update_gc_zip_annotations, hfind, hlk]
      rw [h1]
      simp [update_gc_zip_annotations, hfind1, hrm1, hlk]
    | some c =>
      cases c with
      | zipData entries =>
        cases hpa : patchAll an sl entries with
        | error err =>
          have h1 : update_gc_zip_annotations fs dir an sl =
              removeSubtree fs (dir ++ "/temp_unzip") := by
            simp [update_gc_zip_annotations, hfind, hlk, hpa]
          rw [h1]
          simp [update_gc_zip_annotations, hfind1, hrm1, hlk, hpa]
        | ok patched =>
          have h1 : update_gc_zip_annotations fs dir an sl =
              setFile (removeSubtree fs (dir ++ "/temp_unzip")) z
                (Content.zipData patched) := by
            simp [update_gc_zip_annotations, hfind, hlk, hpa]
          rw [h1]
          have hpresent : lookupFile (removeSubtree fs (dir ++ "/temp_unzip")) z ≠ none := by
            rw [hlk]; exact Option.noConfusion
          have hfind2 : findGC (setFile (removeSubtree fs (dir ++ "/temp_unzip")) z
              (Content.zipData patched)) dir = some z := by
            rw [findGC_setFile _ dir z _ hpresent]
            exact hfind1
          have hrm2 := removeSubtree_setFile fs (dir ++ "/temp_unzip") z
            (Content.zipData patched) hk
          have hlk2 : lookupFile (setFile (removeSubtree fs (dir ++ "/temp_unzip")) z
              (Content.zipData patched)) z = some (Content.zipData patched) :=
            lookupFile_setFile_self _ _ _
          have hpa2 : patchAll an sl patched = .ok patched :=
            patchAll_idem an sl entries patched hpa
          simp only [update_gc_zip_annotations, hfind2, hrm2, hlk2, hpa2]
          simp only [setFile, setFileList_again]
      | jsonPretty v =>
        have h1 : update_gc_zip_annotations fs dir an sl =
            removeSubtree fs (dir ++ "/temp_unzip") := by
          simp [update_gc_zip_annotations, hfind, hlk]
        rw [h1]
        simp [update_gc_zip_annotations, hfind1, hrm1, hlk]
      | jsonText v n =>
        have h1 : update_gc_zip_annotations fs dir an sl =
            removeSubtree fs (dir ++ "/temp_unzip") := by
          simp [update_gc_zip_annotations, hfind, hlk]
        rw [h1]
        simp [update_gc_zip_annotations, hfind1, hrm1, hlk]
      | rawText s =>
        have h1 : update_gc_zip_annotations fs dir an sl =
            removeSubtree fs (dir ++ "/temp_unzip") := by
          simp [update_gc_zip_annotations, hfind, hlk]
        rw [h1]
        simp [update_gc_zip_annotations, hfind1, hrm1, hlk]
      | selfRef =>
        have h1 : update_gc_zip_annotations fs dir an sl =
            removeSubtree fs (dir ++ "/temp_unzip") := by
          simp [update_gc_zip_annotations, hfind, hlk]
        rw [h1]
        simp [update_gc_zip_annotations, hfind1, hrm1, hlk]

/-- Filesystem with one well-placed GC archive, for the C4 witness. -/
def fsC4w : FS :=
  ⟨[("D/x-GC.zip", Content.zipData
      [("r.fusion-data", Content.jsonText
          (Json.obj [("annotations", Json.obj [("name", Json.str "old")]),
                     ("sequence", Json.obj [("location", Json.str "L")])]) 0)])],
   []⟩

/-- Witness for the amended C4. -/
theorem patcher_idempotent_witness :
    update_gc_zip_annotations (update_gc_zip_annotations fsC4w "D" "X" "Y") "D" "X" "Y" =
      update_gc_zip_annotations fsC4w "D" "X" "Y" :=
  patcher_idempotent fsC4w "D" "X" "Y" (by
    intro z hz
    have hz2 : z = "D/x-GC.zip" := by
      have : some z = some "D/x-GC.zip" := by rw [← hz]; rfl
      exact Option.some.inj this
    subst hz2
    rfl)

end Ophelia
